import Mathlib

/-!
Verification of `src/remove_bg.py` (`remove_white_background`).

The script decodes the input image, converts it to RGBA (synthesizing a
fully-opaque alpha channel when the input lacks one), classifies a pixel
as background when all of r, g, b strictly exceed the threshold
(`white_areas = (r > threshold) & (g > threshold) & (b > threshold)`),
sets the alpha channel of background pixels to 0
(`data[..., 3][white_areas.T] = 0`), and saves the result.

The embedding below models pixels as 4-tuples of natural numbers and an
image as its dimensions together with the row-major list of its pixels.
-/

/-- An RGBA pixel: four 8-bit channels, modelled as naturals. -/
structure Pixel where
  r : Nat
  g : Nat
  b : Nat
  a : Nat
deriving DecidableEq, Repr

/-- A pixel is valid when each channel is an 8-bit value. -/
def Pixel.valid (p : Pixel) : Prop :=
  p.r ≤ 255 ∧ p.g ≤ 255 ∧ p.b ≤ 255 ∧ p.a ≤ 255

instance (p : Pixel) : Decidable p.valid := by
  unfold Pixel.valid; infer_instance

/-- A pixel of an image that has no alpha channel (e.g. RGB input). -/
structure RGBPixel where
  r : Nat
  g : Nat
  b : Nat
deriving DecidableEq, Repr

/-- `Image.open(...).convert("RGBA")` on a pixel with no alpha channel:
synthesize full opacity (255). -/
def RGBPixel.toRGBA (p : RGBPixel) : Pixel :=
  ⟨p.r, p.g, p.b, 255⟩

/-- An RGBA image: dimensions plus its pixels in row-major order. -/
structure Image where
  width : Nat
  height : Nat
  pixels : List Pixel
deriving DecidableEq, Repr

/-- A valid image has exactly `width * height` pixels, all of them valid. -/
def Image.valid (img : Image) : Prop :=
  img.pixels.length = img.width * img.height ∧ ∀ p ∈ img.pixels, p.valid

instance (img : Image) : Decidable img.valid := by
  unfold Image.valid; infer_instance

/-- Line 12 of `remove_bg.py`:
`white_areas = (r > threshold) & (g > threshold) & (b > threshold)`,
evaluated at one pixel. -/
def white_areas (threshold : Nat) (p : Pixel) : Bool :=
  decide (p.r > threshold) && decide (p.g > threshold) && decide (p.b > threshold)

/-- Line 15 of `remove_bg.py`, `data[..., 3][white_areas.T] = 0`,
restricted to one pixel: zero the alpha channel where the mask holds. -/
def maskPixel (threshold : Nat) (p : Pixel) : Pixel :=
  if white_areas threshold p then { p with a := 0 } else p

/-- The in-memory transformation of `remove_white_background`
(lines 5-15): pixel data after RGBA conversion, mask computation and
alpha zeroing.  Dimensions are those of the decoded input. -/
def remove_white_background (threshold : Nat) (img : Image) : Image :=
  { width := img.width, height := img.height,
    pixels := img.pixels.map (maskPixel threshold) }

/-- `convert("RGBA")` on a whole image that lacks an alpha channel. -/
def convertRGBA (width height : Nat) (pixels : List RGBPixel) : Image :=
  { width := width, height := height, pixels := pixels.map RGBPixel.toRGBA }

/-- Number of pixels of `img` classified as background at `threshold`. -/
def countBackground (threshold : Nat) (img : Image) : Nat :=
  img.pixels.countP (white_areas threshold)

-- Helper lemmas shared by the claim theorems.

theorem white_areas_iff (threshold : Nat) (p : Pixel) :
    white_areas threshold p = true ↔
      (p.r > threshold ∧ p.g > threshold ∧ p.b > threshold) := by
  simp [white_areas, and_assoc]

theorem maskPixel_idem (threshold : Nat) (p : Pixel) :
    maskPixel threshold (maskPixel threshold p) = maskPixel threshold p := by
  unfold maskPixel
  by_cases h : white_areas threshold p = true
  · have h2 : white_areas threshold { p with a := 0 } = true := by
      simpa [white_areas] using h
    simp [h, h2]
  · simp [h]

theorem countP_antitone {α : Type} (p q : α → Bool)
    (h : ∀ a, p a = true → q a = true) (l : List α) :
    l.countP p ≤ l.countP q := by
  induction l with
  | nil => simp
  | cons x xs ih =>
    by_cases hx : p x = true
    · rw [List.countP_cons_of_pos _ _ hx, List.countP_cons_of_pos _ _ (h x hx)]
      exact Nat.succ_le_succ ih
    · rw [List.countP_cons_of_neg _ _ hx]
      rcases Bool.eq_false_or_eq_true (q x) with hq | hq
      · rw [List.countP_cons_of_pos _ _ hq]
        exact Nat.le_succ_of_le ih
      · rw [List.countP_cons_of_neg]
        · exact ih
        · simp [hq]

-- Claim theorems.

/-- C1: a pixel is classified as background if and only if its red,
green and blue channels each strictly exceed the threshold,
independently — the classification used by `remove_white_background`
is exactly this three-way conjunction of strict comparisons. -/
theorem classification_iff (threshold : Nat) (p : Pixel) :
    white_areas threshold p = true ↔
      (p.r > threshold ∧ p.g > threshold ∧ p.b > threshold) :=
  white_areas_iff threshold p

/-- C2: every pixel classified as background (r, g and b all strictly
above the threshold) is output with alpha 0 and with its r, g, b
channels unchanged. -/
theorem background_alpha_zero (threshold : Nat) (p : Pixel)
    (h : p.r > threshold ∧ p.g > threshold ∧ p.b > threshold) :
    (maskPixel threshold p).a = 0 ∧
    (maskPixel threshold p).r = p.r ∧
    (maskPixel threshold p).g = p.g ∧
    (maskPixel threshold p).b = p.b := by
  have hw : white_areas threshold p = true := (white_areas_iff threshold p).mpr h
  simp [maskPixel, hw]

/-- Witness for C2: the all-white pixel at threshold 240. -/
theorem background_alpha_zero_witness :
    (maskPixel 240 ⟨255, 255, 255, 255⟩).a = 0 ∧
    (maskPixel 240 ⟨255, 255, 255, 255⟩).r = 255 ∧
    (maskPixel 240 ⟨255, 255, 255, 255⟩).g = 255 ∧
    (maskPixel 240 ⟨255, 255, 255, 255⟩).b = 255 := by
  have h := background_alpha_zero 240 ⟨255, 255, 255, 255⟩ (by decide)
  simpa using h

/-- C3: every pixel not classified as background is output entirely
unchanged — r, g, b and alpha all equal the input pixel's channels
(the input alpha having been defaulted to 255 by the RGBA conversion
when the input image had none). -/
theorem foreground_unchanged (threshold : Nat) (p : Pixel)
    (h : ¬(p.r > threshold ∧ p.g > threshold ∧ p.b > threshold)) :
    maskPixel threshold p = p := by
  have hw : white_areas threshold p = false := by
    rcases Bool.eq_false_or_eq_true (white_areas threshold p) with ht | hf
    · exact absurd ((white_areas_iff threshold p).mp ht) h
    · exact hf
  simp [maskPixel, hw]

/-- Witness for C3: a mid-grey pixel at threshold 240 is unchanged. -/
theorem foreground_unchanged_witness :
    maskPixel 240 ⟨200, 200, 200, 255⟩ = ⟨200, 200, 200, 255⟩ :=
  foreground_unchanged 240 ⟨200, 200, 200, 255⟩ (by decide)

/-- C4: for every valid input image of size W×H and every threshold,
the output of `remove_white_background` is also W×H, and its pixel
count equals the input's pixel count. -/
theorem dims_preserved (threshold : Nat) (img : Image)
    (h : img.valid) :
    (remove_white_background threshold img).width = img.width ∧
    (remove_white_background threshold img).height = img.height ∧
    (remove_white_background threshold img).pixels.length = img.pixels.length := by
  refine ⟨rfl, rfl, ?_⟩
  simp [remove_white_background]

/-- Witness for C4: a valid 2×1 image at threshold 240. -/
theorem dims_preserved_witness :
    (remove_white_background 240
      ⟨2, 1, [⟨255, 255, 255, 255⟩, ⟨0, 0, 0, 255⟩]⟩).width = 2 ∧
    (remove_white_background 240
      ⟨2, 1, [⟨255, 255, 255, 255⟩, ⟨0, 0, 0, 255⟩]⟩).height = 1 ∧
    (remove_white_background 240
      ⟨2, 1, [⟨255, 255, 255, 255⟩, ⟨0, 0, 0, 255⟩]⟩).pixels.length =
      ([⟨255, 255, 255, 255⟩, ⟨0, 0, 0, 255⟩] : List Pixel).length :=
  dims_preserved 240 ⟨2, 1, [⟨255, 255, 255, 255⟩, ⟨0, 0, 0, 255⟩]⟩ (by decide)

/-- C5: the transform is idempotent — applying
`remove_white_background` at a fixed threshold to its own output
yields an identical image. -/
theorem transform_idempotent (threshold : Nat) (img : Image) :
    remove_white_background threshold (remove_white_background threshold img) =
      remove_white_background threshold img := by
  simp [remove_white_background, Function.comp, maskPixel_idem]

/-- C6: classification is antitone in the threshold — for thresholds
t1 ≤ t2, at most as many pixels are classified as background at t2 as
at t1. -/
theorem background_count_antitone (t1 t2 : Nat) (img : Image)
    (h : t1 ≤ t2) :
    countBackground t2 img ≤ countBackground t1 img := by
  apply countP_antitone
  intro p hp
  rw [white_areas_iff] at hp ⊢
  exact ⟨Nat.lt_of_le_of_lt h hp.1,
         Nat.lt_of_le_of_lt h hp.2.1,
         Nat.lt_of_le_of_lt h hp.2.2⟩

/-- Witness for C6: thresholds 100 ≤ 240 on a 2×1 image. -/
theorem background_count_antitone_witness :
    countBackground 240 ⟨2, 1, [⟨255, 255, 255, 255⟩, ⟨200, 200, 200, 255⟩]⟩ ≤
      countBackground 100 ⟨2, 1, [⟨255, 255, 255, 255⟩, ⟨200, 200, 200, 255⟩]⟩ :=
  background_count_antitone 100 240
    ⟨2, 1, [⟨255, 255, 255, 255⟩, ⟨200, 200, 200, 255⟩]⟩ (by decide)

/-- C7: when the input lacks an alpha channel the RGBA conversion
synthesizes alpha = 255 for every pixel while keeping r, g, b; in
particular a 1×1 three-channel input (255,255,255) at threshold 240
comes out as (255,255,255,0). -/
theorem alpha_synthesized (q : RGBPixel) :
    (q.toRGBA.a = 255 ∧ q.toRGBA.r = q.r ∧ q.toRGBA.g = q.g ∧ q.toRGBA.b = q.b) ∧
    remove_white_background 240 (convertRGBA 1 1 [⟨255, 255, 255⟩]) =
      ⟨1, 1, [⟨255, 255, 255, 0⟩]⟩ := by
  refine ⟨⟨rfl, rfl, rfl, rfl⟩, ?_⟩
  decide

/-- C9: alpha is monotone non-increasing per pixel — the output
pixel's alpha never exceeds the input pixel's alpha (itself 255 when
synthesized), so the operation never raises any alpha value. -/
theorem alpha_nonincreasing (threshold : Nat) (p : Pixel) :
    (maskPixel threshold p).a ≤ p.a := by
  unfold maskPixel
  by_cases h : white_areas threshold p = true
  · simp [h]
  · simp [h]

/-- C10: for every threshold ≥ 255 no pixel of a valid image is
classified as background (channels are at most 255 and the comparison
is strict), so the output equals the input after RGBA conversion. -/
theorem high_threshold_identity (threshold : Nat) (img : Image)
    (ht : threshold ≥ 255) (hv : img.valid) :
    countBackground threshold img = 0 ∧
    remove_white_background threshold img = img := by
  have hmask : ∀ p ∈ img.pixels, white_areas threshold p = false := by
    intro p hp
    rcases hv.2 p hp with ⟨hr, _, _, _⟩
    rcases Bool.eq_false_or_eq_true (white_areas threshold p) with htr | hf
    · exfalso
      have hlt := ((white_areas_iff threshold p).mp htr).1
      exact absurd (Nat.lt_of_lt_of_le hlt (Nat.le_trans hr ht)) (Nat.lt_irrefl _)
    · exact hf
  constructor
  · exact List.countP_eq_zero.mpr (by intro p hp; simp [hmask p hp])
  · cases img with
    | mk w h px =>
      simp only [remove_white_background, Image.mk.injEq, true_and]
      have hcongr : px.map (maskPixel threshold) = px.map id :=
        List.map_congr_left (by intro p hp; simp [maskPixel, hmask p hp])
      rw [hcongr, List.map_id]

/-- Witness for C10: threshold 255 on a valid 1×1 all-white image. -/
theorem high_threshold_identity_witness :
    countBackground 255 ⟨1, 1, [⟨255, 255, 255, 255⟩]⟩ = 0 ∧
    remove_white_background 255 ⟨1, 1, [⟨255, 255, 255, 255⟩]⟩ =
      ⟨1, 1, [⟨255, 255, 255, 255⟩]⟩ :=
  high_threshold_identity 255 ⟨1, 1, [⟨255, 255, 255, 255⟩]⟩ (by decide) (by decide)
